import Mathlib

/-!
Shallow embedding of `src/lib/nonprintable.ts` (ClearText).

Texts are modelled as lists of Unicode code points (`List Nat`): the
TypeScript code iterates its input strictly by code point, via
`codePointAt` / `String.fromCodePoint`.  Reported indices are UTF-16
code-unit offsets, reproduced here by advancing an index counter by
`cpLen cp` (1 for BMP code points, 2 for supplementary ones), exactly as
the source advances `i` by `ch.length`.

The source classifies non-printables with the regular expression
`/[\p{Cc}\p{Cf}\p{Cs}\p{Co}\p{Cn}]/gu`, i.e. by the Unicode
general-category property data of the regex engine.  That property data
is external to the repository; it is modelled below by `isCc`, `isCf`,
`isCs`, `isCo`, `isCn`.  `Cc`, `Cs` and `Co` are complete (they are
fixed ranges); `Cf` lists the format-control code points of current
Unicode; `Cn` (unassigned) is modelled by representative unassigned
ranges, which suffices because no theorem below depends on the exact
extension of `Cn` at any concrete code point.
-/

namespace ClearText

/-- Number of UTF-16 code units occupied by a code point
(`String.fromCodePoint(cp).length` in the source). -/
def cpLen (cp : Nat) : Nat := if cp < 0x10000 then 1 else 2

/-- Bounded-range test used to express the category tables. -/
def inRange (lo hi cp : Nat) : Bool := decide (lo ≤ cp ∧ cp ≤ hi)

/-- Unicode general category Cc (control): U+0000..U+001F and U+007F..U+009F. -/
def isCc (cp : Nat) : Bool := decide (cp ≤ 0x1f) || inRange 0x7f 0x9f cp

/-- Unicode general category Cf (format): the format-control code points. -/
def isCf (cp : Nat) : Bool :=
  cp == 0xad || inRange 0x600 0x605 cp || cp == 0x61c || cp == 0x6dd ||
  cp == 0x70f || inRange 0x890 0x891 cp || cp == 0x8e2 || cp == 0x180e ||
  inRange 0x200b 0x200f cp || inRange 0x202a 0x202e cp ||
  inRange 0x2060 0x2064 cp || inRange 0x2066 0x206f cp ||
  cp == 0xfeff || inRange 0xfff9 0xfffb cp ||
  cp == 0x110bd || cp == 0x110cd || inRange 0x13430 0x1343f cp ||
  inRange 0x1bca0 0x1bca3 cp || inRange 0x1d173 0x1d17a cp ||
  cp == 0xe0001 || inRange 0xe0020 0xe007f cp

/-- Unicode general category Cs (surrogate): U+D800..U+DFFF. -/
def isCs (cp : Nat) : Bool := inRange 0xd800 0xdfff cp

/-- Unicode general category Co (private use). -/
def isCo (cp : Nat) : Bool :=
  inRange 0xe000 0xf8ff cp || inRange 0xf0000 0xffffd cp ||
  inRange 0x100000 0x10fffd cp

/-- Unicode general category Cn (unassigned), modelled by representative
unassigned ranges: some BMP gaps, the noncharacters, and planes 4-13. -/
def isCn (cp : Nat) : Bool :=
  inRange 0x378 0x379 cp || inRange 0x380 0x383 cp || cp == 0x38b ||
  cp == 0x38d || cp == 0x3a2 || inRange 0x2fe0 0x2fef cp ||
  inRange 0xfdd0 0xfdef cp || (inRange 0xfffe 0xffff (cp % 0x10000) && decide (cp ≤ 0x10ffff)) ||
  inRange 0x40000 0xdffff cp

/-- Membership in the character class of `NON_PRINTABLE_REGEX`,
`/[\p{Cc}\p{Cf}\p{Cs}\p{Co}\p{Cn}]/gu`. -/
def isNonPrintable (cp : Nat) : Bool :=
  isCc cp || isCf cp || isCs cp || isCo cp || isCn cp

/-- The `NAMED` lookup table of the source: human-readable name and
category string for the well-known code points. -/
def NAMED (cp : Nat) : Option (String × String) :=
  if cp == 0x00 then some ("NULL", "Cc")
  else if cp == 0x09 then some ("TAB", "Cc")
  else if cp == 0x0a then some ("LINE FEED", "Cc")
  else if cp == 0x0d then some ("CARRIAGE RETURN", "Cc")
  else if cp == 0x200b then some ("ZERO WIDTH SPACE", "Cf")
  else if cp == 0x200c then some ("ZERO WIDTH NON-JOINER", "Cf")
  else if cp == 0x200d then some ("ZERO WIDTH JOINER", "Cf")
  else if cp == 0x00a0 then some ("NO-BREAK SPACE", "Zs")
  else if cp == 0x2028 then some ("LINE SEPARATOR", "Zl")
  else if cp == 0x2029 then some ("PARAGRAPH SEPARATOR", "Zp")
  else if cp == 0x00ad then some ("SOFT HYPHEN", "Cf")
  else if cp == 0x061c then some ("ARABIC LETTER MARK", "Cf")
  else if cp == 0x200e then some ("LEFT-TO-RIGHT MARK", "Cf")
  else if cp == 0x200f then some ("RIGHT-TO-LEFT MARK", "Cf")
  else if cp == 0x202a then some ("LEFT-TO-RIGHT EMBEDDING", "Cf")
  else if cp == 0x202b then some ("RIGHT-TO-LEFT EMBEDDING", "Cf")
  else if cp == 0x202c then some ("POP DIRECTIONAL FORMATTING", "Cf")
  else if cp == 0x202d then some ("LEFT-TO-RIGHT OVERRIDE", "Cf")
  else if cp == 0x202e then some ("RIGHT-TO-LEFT OVERRIDE", "Cf")
  else if cp == 0x2066 then some ("LEFT-TO-RIGHT ISOLATE", "Cf")
  else if cp == 0x2067 then some ("RIGHT-TO-LEFT ISOLATE", "Cf")
  else if cp == 0x2068 then some ("FIRST STRONG ISOLATE", "Cf")
  else if cp == 0x2069 then some ("POP DIRECTIONAL ISOLATE", "Cf")
  else none

/-- Uppercase hexadecimal digit character. -/
def hexDigitChar (n : Nat) : Char :=
  if n < 10 then Char.ofNat (48 + n) else Char.ofNat (55 + n)

/-- Big-endian uppercase hexadecimal digits of a number
(`codePoint.toString(16).toUpperCase()`). -/
def hexDigits (n : Nat) : List Char :=
  if n < 16 then [hexDigitChar n]
  else hexDigits (n / 16) ++ [hexDigitChar (n % 16)]
termination_by n
decreasing_by omega

/-- The `hex` helper of the source: `U+XXXX` notation, zero-padded to at
least four digits (`padStart(4, "0")`). -/
def hexName (cp : Nat) : String :=
  let ds := hexDigits cp
  let padded := List.replicate (4 - ds.length) (Char.ofNat 48) ++ ds
  "U+" ++ String.mk padded

/-- Name reported for a code point: `NAMED[cp]?.name ?? hex(cp)`. -/
def nameOf (cp : Nat) : String :=
  match NAMED cp with
  | some nc => nc.1
  | none => hexName cp

/-- Category reported for a code point: `NAMED[cp]?.category ?? "C*"`. -/
def categoryOf (cp : Nat) : String :=
  match NAMED cp with
  | some nc => nc.2
  | none => "C*"

/-- The `NonPrintableMatch` record of the source.  `char` is the matched
one-code-point string, represented by its code-point value. -/
structure NonPrintableMatch where
  index : Nat
  char : Nat
  codePoint : Nat
  name : String
  category : String
deriving DecidableEq, Repr

/-- The `PositionedMatch` record of the source: a match plus 1-based
line and column (column counts code points). -/
structure PositionedMatch where
  index : Nat
  char : Nat
  codePoint : Nat
  name : String
  category : String
  line : Nat
  column : Nat
deriving DecidableEq, Repr

/-- Match record built at a given index, as pushed by `findNonPrintable`. -/
def mkMatch (i cp : Nat) : NonPrintableMatch :=
  ⟨i, cp, cp, nameOf cp, categoryOf cp⟩

/-- Positioned match record, as pushed by `findNonPrintableWithPositions`. -/
def mkPos (i cp line column : Nat) : PositionedMatch :=
  ⟨i, cp, cp, nameOf cp, categoryOf cp, line, column⟩

/-- Loop of `findNonPrintable`: every code point matched by the regex is
reported, with its UTF-16 code-unit index. -/
def findAux : List Nat → Nat → List NonPrintableMatch
  | [], _ => []
  | cp :: rest, i =>
    (if isNonPrintable cp then [mkMatch i cp] else []) ++ findAux rest (i + cpLen cp)

/-- The `findNonPrintable` function of the source. -/
def findNonPrintable (l : List Nat) : List NonPrintableMatch := findAux l 0

/-- True iff a code point is one of the line terminators the scanner
treats as a line break: CR, LF, LINE SEPARATOR, PARAGRAPH SEPARATOR. -/
def isBreak (cp : Nat) : Bool :=
  cp == 0x0d || cp == 0x0a || cp == 0x2028 || cp == 0x2029

/-- Line/column update for a single code point that is not the CR of a
CR LF pair: a line terminator starts a new line, anything else advances
the column. -/
def nextLC (cp line column : Nat) : Nat × Nat :=
  if isBreak cp then (line + 1, 1) else (line, column + 1)

/-- Loop of `findNonPrintableWithPositions`.  A CARRIAGE RETURN
immediately followed by LINE FEED is consumed as a single line break:
the index skips both code points and the LINE FEED is never offered to
the regex (so it is not reported). -/
def scanAux : List Nat → Nat → Nat → Nat → List PositionedMatch
  | [], _, _, _ => []
  | [cp], i, line, column =>
    if isNonPrintable cp then [mkPos i cp line column] else []
  | cp :: cp2 :: rest, i, line, column =>
    (if isNonPrintable cp then [mkPos i cp line column] else []) ++
    (if cp == 0x0d && cp2 == 0x0a then
      scanAux rest (i + 2) (line + 1) 1
    else
      scanAux (cp2 :: rest) (i + cpLen cp) (nextLC cp line column).1 (nextLC cp line column).2)

/-- The `findNonPrintableWithPositions` function of the source. -/
def findNonPrintableWithPositions (l : List Nat) : List PositionedMatch :=
  scanAux l 0 1 1

/-- The `CleanOptions` record of the source. -/
structure CleanOptions where
  removeCc : Bool
  removeCf : Bool
  removeCs : Bool
  removeCo : Bool
  removeCn : Bool
  preserveTab : Bool
  preserveLF : Bool
  preserveCR : Bool
  removeZWSP : Bool
  nbspToSpace : Bool
  normalizeDashes : Bool
  normalizeQuotes : Bool
deriving DecidableEq, Repr

/-- The `defaultCleanOptions` function of the source. -/
def defaultCleanOptions : CleanOptions :=
  { removeCc := true
    removeCf := true
    removeCs := true
    removeCo := true
    removeCn := true
    preserveTab := true
    preserveLF := true
    preserveCR := false
    removeZWSP := true
    nbspToSpace := true
    normalizeDashes := true
    normalizeQuotes := true }

/-- The `DASH_MAP` table: dash variants mapped to HYPHEN-MINUS. -/
def dashMap (cp : Nat) : Option Nat :=
  if cp == 0x2010 || cp == 0x2011 || cp == 0x2012 || cp == 0x2013 ||
     cp == 0x2014 || cp == 0x2212 then some 0x2d else none

/-- The `QUOTE_MAP` table: quote variants mapped to straight quotes. -/
def quoteMap (cp : Nat) : Option Nat :=
  if cp == 0x2018 || cp == 0x2019 || cp == 0x201a || cp == 0x201b ||
     cp == 0x2032 then some 0x27
  else if cp == 0x201c || cp == 0x201d || cp == 0x201e || cp == 0x201f ||
     cp == 0x2033 then some 0x22
  else none

/-- Character-list prefix test. -/
def charsPre : List Char → List Char → Bool
  | [], _ => true
  | _ :: _, [] => false
  | a :: as, b :: bs => a == b && charsPre as bs

/-- The `String.prototype.startsWith` test used on category strings.
(All category strings here are two characters or `C*`, so this agrees
with the JavaScript call.) -/
def strStartsWith (s p : String) : Bool := charsPre p.data s.data

/-- The `shouldRemove` test of `cleanText`: the category consulted is
the `NAMED` table entry, defaulting to `C*` when absent. -/
def shouldRemove (o : CleanOptions) (cp : Nat) : Bool :=
  let cat := categoryOf cp
  (strStartsWith cat "Cc" && o.removeCc) ||
  (strStartsWith cat "Cf" && o.removeCf) ||
  (strStartsWith cat "Cs" && o.removeCs) ||
  (strStartsWith cat "Co" && o.removeCo) ||
  (strStartsWith cat "Cn" && o.removeCn)

/-- One iteration of the `cleanText` loop: the code points emitted for a
single input code point, with the source's rule priority (NBSP, dashes,
quotes, ZWSP, non-printable handling, pass-through). -/
def cleanCp (o : CleanOptions) (cp : Nat) : List Nat :=
  if o.nbspToSpace && cp == 0x00a0 then [0x20]
  else match (if o.normalizeDashes then dashMap cp else none) with
  | some d => [d]
  | none =>
    match (if o.normalizeQuotes then quoteMap cp else none) with
    | some q => [q]
    | none =>
      if o.removeZWSP && cp == 0x200b then []
      else if isNonPrintable cp then
        if cp == 0x09 && o.preserveTab then [cp]
        else if cp == 0x0a && o.preserveLF then [cp]
        else if cp == 0x0d && o.preserveCR then [cp]
        else if shouldRemove o cp then []
        else [cp]
      else [cp]

/-- The `cleanText` function of the source: each code point is rewritten
independently, left to right. -/
def cleanText : List Nat → CleanOptions → List Nat
  | [], _ => []
  | cp :: rest, o => cleanCp o cp ++ cleanText rest o

/-- The `FrequencyEntry` record of the source. -/
structure FrequencyEntry where
  codePoint : Nat
  name : String
  category : String
  count : Nat
deriving DecidableEq, Repr

/-- One `freq.set` step of `summarizeNonPrintable`: increment the count
of `cp` in the insertion-ordered association list, appending a fresh
entry with count 1 when absent (a JavaScript `Map` keeps insertion
order, and overwriting an existing key keeps its position). -/
def bump (cp : Nat) : List (Nat × Nat) → List (Nat × Nat)
  | [] => [(cp, 1)]
  | (k, c) :: rest =>
    if k == cp then (k, c + 1) :: rest else (k, c) :: bump cp rest

/-- Frequency map of `summarizeNonPrintable`, built by iterating the
regex matches (the non-printable code points, in input order). -/
def freqOf (occs : List Nat) : List (Nat × Nat) :=
  occs.foldl (fun acc cp => bump cp acc) []

/-- Frequency entry built for a code point and its count; the name and
category are the `NAMED` lookup with the hex / `C*` fallback (the source
captures them at first insertion, which yields the same values). -/
def mkEntry (p : Nat × Nat) : FrequencyEntry :=
  ⟨p.1, nameOf p.1, categoryOf p.1, p.2⟩

/-- Boolean form of the sort order of `summarizeNonPrintable`'s
comparator `b.count - a.count || a.codePoint - b.codePoint`: descending
count, ties by ascending code point. -/
def entryLE (a b : FrequencyEntry) : Bool :=
  decide (b.count < a.count) ||
  (a.count == b.count && decide (a.codePoint ≤ b.codePoint))

/-- Ordered insertion for `sortEntries`. -/
def insertEntry (e : FrequencyEntry) : List FrequencyEntry → List FrequencyEntry
  | [] => [e]
  | x :: xs => if entryLE e x then e :: x :: xs else x :: insertEntry e xs

/-- The `.sort` call of `summarizeNonPrintable`, realised as insertion
sort: the comparator is a strict total order on the entry list (all code
points are distinct), so the sorted permutation is unique and any
correct sort produces it. -/
def sortEntries : List FrequencyEntry → List FrequencyEntry
  | [] => []
  | x :: xs => insertEntry x (sortEntries xs)

/-- The `summarizeNonPrintable` function of the source. -/
def summarizeNonPrintable (l : List Nat) : List FrequencyEntry :=
  sortEntries ((freqOf (l.filter isNonPrintable)).map mkEntry)

/-- Total count over a list of frequency entries
(`sum(entry.count for entry in summarize(s))`). -/
def sumCounts (es : List FrequencyEntry) : Nat :=
  es.foldl (fun acc e => acc + e.count) 0

/-- The `classifyToken` function of the source. -/
def classifyToken (cp : Nat) (category : String) : String :=
  if cp == 0x200b then "token-zwsp"
  else if cp == 0x00a0 then "token-nbsp"
  else if cp == 0x00ad then "token-soft"
  else if cp == 0x200e || cp == 0x200f || cp == 0x202a || cp == 0x202b ||
          cp == 0x202c || cp == 0x202d || cp == 0x202e || cp == 0x2066 ||
          cp == 0x2067 || cp == 0x2068 || cp == 0x2069 then "token-bidi"
  else if strStartsWith category "Cc" then "token-cc"
  else if strStartsWith category "Cf" then "token-cf"
  else if strStartsWith category "Cs" then "token-cs"
  else if strStartsWith category "Co" then "token-co"
  else if strStartsWith category "Cn" then "token-cn"
  else "token-cf"

/-- The `escape` helper of `visualizeWithTokens`, on one code point:
`&`, `<`, `>` become entities, anything else is copied through.  (The
source's three sequential `replace` calls are equivalent to this
character-wise map: the first replaces every original `&` before the
later ones run, and no replacement string contains `<` or `>`.) -/
def escapeChar (cp : Nat) : String :=
  if cp == 38 then "&amp;"
  else if cp == 60 then "&lt;"
  else if cp == 62 then "&gt;"
  else String.singleton (Char.ofNat cp)

/-- The `escape` helper applied to a whole string (used on tooltips). -/
def escapeString (s : String) : String :=
  String.join (s.data.map (fun c => escapeChar c.toNat))

/-- Decimal rendering of a number, as interpolated into the tooltip. -/
def decimalStr (n : Nat) : String := toString n

/-- The placeholder `<span>` emitted by `visualizeWithTokens` for one
hidden code point at a given line and column. -/
def hiddenSpan (cp line column : Nat) : String :=
  let name := nameOf cp
  let category := categoryOf cp
  let cls := classifyToken cp category
  let title := name ++ " (" ++ hexName cp ++ ") — Category " ++ category ++
    " — at " ++ decimalStr line ++ ":" ++ decimalStr column
  "<span class=\"token " ++ cls ++ "\" title=\"" ++ escapeString title ++
    "\">&#9676;</span>"

/-- Loop state and outputs of `visualizeWithTokens`: accumulated markup,
running count, and the current line/column. -/
structure VisResult where
  html : String
  count : Nat
  line : Nat
  column : Nat
deriving DecidableEq, Repr

/-- Loop of `visualizeWithTokens`.  Each visited code point contributes
its escaped self (when printable) or a placeholder span and a count
increment (when hidden); a CARRIAGE RETURN immediately followed by LINE
FEED is consumed as a single line break, so the LINE FEED of the pair is
never visited: it contributes no markup and no count. -/
def visualizeAux : List Nat → Nat → Nat → VisResult
  | [], line, column => ⟨"", 0, line, column⟩
  | [cp], line, column =>
    let piece := if isNonPrintable cp then hiddenSpan cp line column else escapeChar cp
    let k := if isNonPrintable cp then 1 else 0
    ⟨piece, k, (nextLC cp line column).1, (nextLC cp line column).2⟩
  | cp :: cp2 :: rest, line, column =>
    let piece := if isNonPrintable cp then hiddenSpan cp line column else escapeChar cp
    let k := if isNonPrintable cp then 1 else 0
    if cp == 0x0d && cp2 == 0x0a then
      let r := visualizeAux rest (line + 1) 1
      ⟨piece ++ r.html, k + r.count, r.line, r.column⟩
    else
      let r := visualizeAux (cp2 :: rest) (nextLC cp line column).1 (nextLC cp line column).2
      ⟨piece ++ r.html, k + r.count, r.line, r.column⟩

/-- The `visualizeWithTokens` function of the source: markup and count. -/
def visualizeWithTokens (l : List Nat) : String × Nat :=
  let r := visualizeAux l 1 1
  (r.html, r.count)

/-- Forgetting the position fields of a positioned match. -/
def stripPos (m : PositionedMatch) : NonPrintableMatch :=
  ⟨m.index, m.char, m.codePoint, m.name, m.category⟩

/-- True iff the list contains a CARRIAGE RETURN immediately followed
by a LINE FEED. -/
def hasCRLF : List Nat → Bool
  | [] => false
  | [_] => false
  | cp :: cp2 :: rest => (cp == 0x0d && cp2 == 0x0a) || hasCRLF (cp2 :: rest)

/-- Claim C1 as stated: whenever `clean` meets a non-printable code
point and neither a smart-replace rule nor a control-preservation
override fires, the code point is dropped iff the `removeC*` flag of its
actual Unicode general category is set. -/
def claimC1 : Prop :=
  ∀ (o : CleanOptions) (cp : Nat),
    isNonPrintable cp = true →
    (o.nbspToSpace && cp == 0x00a0) = false →
    (o.normalizeDashes && (dashMap cp).isSome) = false →
    (o.normalizeQuotes && (quoteMap cp).isSome) = false →
    (o.removeZWSP && cp == 0x200b) = false →
    (cp == 0x09 && o.preserveTab) = false →
    (cp == 0x0a && o.preserveLF) = false →
    (cp == 0x0d && o.preserveCR) = false →
    (cleanText [cp] o = [] ↔
      ((isCc cp && o.removeCc) || (isCf cp && o.removeCf) ||
       (isCs cp && o.removeCs) || (isCo cp && o.removeCo) ||
       (isCn cp && o.removeCn)) = true)

/-- Claim C2 as stated: the counts of the frequency table sum to the
length of the positioned scan. -/
def claimC2 : Prop :=
  ∀ l : List Nat,
    sumCounts (summarizeNonPrintable l) = (findNonPrintableWithPositions l).length

/-- Claim C3 as stated: the flat occurrence list is the positioned scan
with the line and column fields stripped. -/
def claimC3 : Prop :=
  ∀ l : List Nat,
    findNonPrintable l = (findNonPrintableWithPositions l).map stripPos

/-- The input of claim C4: `"café\r\n word"`. -/
def inputC4 : List Nat :=
  [0x63, 0x61, 0x66, 0xe9, 0x0d, 0x0a, 0xa0, 0x77, 0x6f, 0x72, 0x64]

/-- Claim C4 as stated: cleaning with `nbspToSpace` on yields
`"café\r\n word"`, and the scan reports the NO-BREAK SPACE at
line 2, column 1. -/
def claimC4 : Prop :=
  (∀ o : CleanOptions, o.nbspToSpace = true →
    cleanText inputC4 o =
      [0x63, 0x61, 0x66, 0xe9, 0x0d, 0x0a, 0x20, 0x77, 0x6f, 0x72, 0x64]) ∧
  ∃ m ∈ findNonPrintableWithPositions inputC4,
    m.codePoint = 0x00a0 ∧ m.line = 2 ∧ m.column = 1

/-- Default options with the CARRIAGE RETURN preservation flag set. -/
def optionsC4 : CleanOptions := { defaultCleanOptions with preserveCR := true }

/-- Spec-side re-derivation of positions (claim C5's forward pass,
stated from the spec's words): visiting the text from `line = 1`,
`column = 1`, it records `(index, line, column)` for every visited code
point; a CARRIAGE RETURN immediately followed by LINE FEED is consumed
as a single line break (index past both, line+1, column 1); CARRIAGE
RETURN alone, LINE FEED alone, LINE SEPARATOR or PARAGRAPH SEPARATOR
set line+1, column 1; every other code point adds one column. -/
def specPosAux : List Nat → Nat → Nat → Nat → List (Nat × Nat × Nat)
  | [], _, _, _ => []
  | [_], i, line, column => [(i, line, column)]
  | cp :: cp2 :: rest, i, line, column =>
    (i, line, column) ::
    (if cp == 0x0d && cp2 == 0x0a then
      specPosAux rest (i + 2) (line + 1) 1
    else if isBreak cp then
      specPosAux (cp2 :: rest) (i + cpLen cp) (line + 1) 1
    else
      specPosAux (cp2 :: rest) (i + cpLen cp) line (column + 1))

/-- Spec-side forward pass of claim C5 over a whole text. -/
def specPositions (l : List Nat) : List (Nat × Nat × Nat) := specPosAux l 0 1 1

/-- Lookup in the insertion-ordered frequency association list. -/
def findCount : List (Nat × Nat) → Nat → Option Nat
  | [], _ => none
  | (k, c) :: rest, q => if k == q then some c else findCount rest q

/-- C7: `defaultOptions` sets every category-removal flag, `preserveTab`,
`preserveLF`, `removeZWSP` and every smart-replace flag to `true`, and
`preserveCR` to `false`. -/
theorem defaultCleanOptions_spec :
    defaultCleanOptions.removeCc = true ∧ defaultCleanOptions.removeCf = true ∧
    defaultCleanOptions.removeCs = true ∧ defaultCleanOptions.removeCo = true ∧
    defaultCleanOptions.removeCn = true ∧ defaultCleanOptions.preserveTab = true ∧
    defaultCleanOptions.preserveLF = true ∧ defaultCleanOptions.preserveCR = false ∧
    defaultCleanOptions.removeZWSP = true ∧ defaultCleanOptions.nbspToSpace = true ∧
    defaultCleanOptions.normalizeDashes = true ∧ defaultCleanOptions.normalizeQuotes = true := by
  decide

/-- Each input code point produces at most one output code point. -/
theorem cleanCp_length_le (o : CleanOptions) (cp : Nat) : (cleanCp o cp).length ≤ 1 := by
  unfold cleanCp
  repeat' split
  all_goals simp

/-- C6: cleaning never increases the number of code points. -/
theorem cleanText_length_le (l : List Nat) (o : CleanOptions) :
    (cleanText l o).length ≤ l.length := by
  induction l with
  | nil => simp [cleanText]
  | cons cp rest ih =>
    simp only [cleanText, List.length_append, List.length_cons]
    have h := cleanCp_length_le o cp
    omega

/-- C1 fails on the code: U+0007 (BELL) is a Cc control, `removeCc` is
set by default, no smart-replace rule or preservation override applies,
yet `clean` keeps it — the removal decision reads the category from the
24-entry `NAMED` table (falling back to `C*`), so non-printables outside
that table are never removed, and the `removeCs`/`removeCo`/`removeCn`
flags can never remove anything. -/
theorem cleanText_bell_kept :
    isCc 0x07 = true ∧ isNonPrintable 0x07 = true ∧
    defaultCleanOptions.removeCc = true ∧
    cleanText [0x07] defaultCleanOptions = [0x07] ∧ ¬ claimC1 := by
  refine ⟨by decide, by decide, by decide, by decide, fun h => ?_⟩
  have h7 := h defaultCleanOptions 0x07 (by decide) (by decide) (by decide)
    (by decide) (by decide) (by decide) (by decide) (by decide)
  revert h7
  decide

/-- C2 as stated is false: on `"\r\n"` the frequency counts sum to 2
(CARRIAGE RETURN and LINE FEED) but the positioned scan has a single
occurrence, because it skips the LINE FEED of a CR LF pair. -/
theorem claimC2_false : ¬ claimC2 := by
  intro h
  have h2 := h [0x0d, 0x0a]
  revert h2
  decide

/-- C3 as stated is false: on `"\r\n"` the flat list has two
occurrences but the positioned scan reports only the CARRIAGE RETURN. -/
theorem claimC3_false : ¬ claimC3 := by
  intro h
  have h2 := h [0x0d, 0x0a]
  revert h2
  decide

/-- C4 as stated is false: the scan never reports the NO-BREAK SPACE
(its category is Zs, which `NON_PRINTABLE_REGEX` does not match). -/
theorem claimC4_false : ¬ claimC4 := by
  intro h
  exact absurd h.2 (by decide)

/-- Folding the counts of a list of entries. -/
theorem foldl_counts (es : List FrequencyEntry) (a : Nat) :
    es.foldl (fun acc e => acc + e.count) a = a + (es.map FrequencyEntry.count).sum := by
  induction es generalizing a with
  | nil => simp
  | cons e es ih =>
    simp only [List.foldl_cons, List.map_cons, List.sum_cons, ih]
    omega

/-- The total count is the sum of the `count` fields. -/
theorem sumCounts_eq (es : List FrequencyEntry) :
    sumCounts es = (es.map FrequencyEntry.count).sum := by
  unfold sumCounts
  simpa using foldl_counts es 0

/-- Ordered insertion permutes. -/
theorem insertEntry_perm (e : FrequencyEntry) (es : List FrequencyEntry) :
    List.Perm (insertEntry e es) (e :: es) := by
  induction es with
  | nil => simp [insertEntry]
  | cons x xs ih =>
    unfold insertEntry
    split
    · exact List.Perm.refl _
    · exact List.Perm.trans (List.Perm.cons x ih) (List.Perm.swap e x xs)

/-- Sorting the frequency entries permutes. -/
theorem sortEntries_perm (es : List FrequencyEntry) :
    List.Perm (sortEntries es) es := by
  induction es with
  | nil => exact List.Perm.refl _
  | cons x xs ih =>
    exact List.Perm.trans (insertEntry_perm x (sortEntries xs)) (List.Perm.cons x ih)

/-- One `bump` adds exactly one to the total of the counts. -/
theorem bump_sum (cp : Nat) (acc : List (Nat × Nat)) :
    ((bump cp acc).map Prod.snd).sum = (acc.map Prod.snd).sum + 1 := by
  induction acc with
  | nil => simp [bump]
  | cons p rest ih =>
    obtain ⟨k, c⟩ := p
    unfold bump
    split
    · simp only [List.map_cons, List.sum_cons]
      omega
    · simp only [List.map_cons, List.sum_cons, ih]
      omega

/-- Folding `bump` over the matches accumulates their number. -/
theorem freq_fold_sum (occs : List Nat) (acc : List (Nat × Nat)) :
    ((occs.foldl (fun a c => bump c a) acc).map Prod.snd).sum =
      (acc.map Prod.snd).sum + occs.length := by
  induction occs generalizing acc with
  | nil => simp
  | cons cp occs ih =>
    simp only [List.foldl_cons, List.length_cons, ih, bump_sum]
    omega

/-- The code points of the flat list are the non-printable code points
of the input, in order. -/
theorem findAux_map_codePoint (l : List Nat) (i : Nat) :
    (findAux l i).map NonPrintableMatch.codePoint = l.filter isNonPrintable := by
  induction l generalizing i with
  | nil => simp [findAux]
  | cons cp rest ih =>
    unfold findAux
    by_cases h : isNonPrintable cp <;>
      simp [h, mkMatch, ih, List.filter_cons]

/-- C2, amended: the frequency counts sum to the length of the flat
occurrence list `findNonPrintable(s)` (the positioned scan can be
shorter, since it omits the LINE FEED of each CR LF pair). -/
theorem sumCounts_summarize (l : List Nat) :
    sumCounts (summarizeNonPrintable l) = (findNonPrintable l).length := by
  have h1 : (findNonPrintable l).length = (l.filter isNonPrintable).length := by
    rw [← findAux_map_codePoint l 0, List.length_map]
    rfl
  rw [sumCounts_eq, h1]
  unfold summarizeNonPrintable
  rw [List.Perm.sum_eq (List.Perm.map FrequencyEntry.count (sortEntries_perm _))]
  rw [List.map_map]
  have h2 : (FrequencyEntry.count ∘ mkEntry) = Prod.snd := rfl
  rw [h2]
  unfold freqOf
  simpa using freq_fold_sum (l.filter isNonPrintable) []

/-- Unfolding lemma for `hasCRLF` on two or more elements. -/
theorem hasCRLF_cons (cp cp2 : Nat) (rest : List Nat) :
    hasCRLF (cp :: cp2 :: rest) =
      ((cp == 0x0d && cp2 == 0x0a) || hasCRLF (cp2 :: rest)) := rfl

/-- On CRLF-free texts the positioned scan, stripped, is the flat scan
(generalised over the loop state). -/
theorem scanAux_strip (l : List Nat) (i line col : Nat) (h : hasCRLF l = false) :
    (scanAux l i line col).map stripPos = findAux l i := by
  induction l, i, line, col using scanAux.induct with
  | case1 i line col => simp [scanAux, findAux]
  | case2 cp i line col hnp =>
    simp [scanAux, findAux, hnp, stripPos, mkPos, mkMatch]
  | case3 cp i line col hnp =>
    simp [scanAux, findAux, hnp]
  | case4 cp cp2 rest i line col ih2 ih1 =>
    rw [hasCRLF_cons] at h
    simp only [Bool.or_eq_false_iff] at h
    obtain ⟨hpair, hrest⟩ := h
    by_cases hnp : isNonPrintable cp <;>
      simp [scanAux, findAux, hpair, hnp, stripPos, mkPos, mkMatch, ih1 hrest]

/-- C3, amended: for every input with no CARRIAGE RETURN immediately
followed by LINE FEED, the flat list equals the positioned scan with
line/column stripped (on CRLF inputs the scan omits the pair's LINE
FEED, which the flat list keeps). -/
theorem findNonPrintable_eq_strip_scan (l : List Nat) (h : hasCRLF l = false) :
    findNonPrintable l = (findNonPrintableWithPositions l).map stripPos :=
  (scanAux_strip l 0 1 1 h).symm

/-- Witness for the amended C3 at the input `"A​B"`-like text
`['A', ZERO WIDTH SPACE]`. -/
theorem findNonPrintable_eq_strip_scan_witness :
    hasCRLF [0x41, 0x200b] = false ∧
    findNonPrintable [0x41, 0x200b] =
      (findNonPrintableWithPositions [0x41, 0x200b]).map stripPos :=
  ⟨by decide, findNonPrintable_eq_strip_scan [0x41, 0x200b] (by decide)⟩

/-- Every reported occurrence's position is the one derived by the
spec's forward pass, generalised over the loop state. -/
theorem scanAux_pos_mem (l : List Nat) (i line col : Nat) (m : PositionedMatch)
    (hm : m ∈ scanAux l i line col) :
    (m.index, m.line, m.column) ∈ specPosAux l i line col := by
  induction l, i, line, col using scanAux.induct with
  | case1 i line col => simp [scanAux] at hm
  | case2 cp i line col hnp =>
    simp only [scanAux, hnp, if_pos, List.mem_singleton] at hm
    subst hm
    simp [specPosAux, mkPos]
  | case3 cp i line col hnp =>
    simp [scanAux, hnp] at hm
  | case4 cp cp2 rest i line col ih2 ih1 =>
    simp only [scanAux] at hm
    rcases List.mem_append.mp hm with h1 | h1
    · have hmeq : m = mkPos i cp line col := by
        by_cases hnp : isNonPrintable cp
        · simpa [hnp] using h1
        · simp [hnp] at h1
      subst hmeq
      simp [specPosAux, mkPos]
    · simp only [specPosAux, List.mem_cons]
      right
      by_cases hpair : (cp == 0x0d && cp2 == 0x0a) = true
      · rw [if_pos hpair] at h1
        rw [if_pos hpair]
        exact ih2 h1
      · rw [if_neg hpair] at h1
        have h2 := ih1 h1
        rw [if_neg hpair]
        by_cases hbr : isBreak cp = true
        · rw [if_pos hbr]
          simpa [nextLC, hbr] using h2
        · have hbrf : isBreak cp = false := by
            revert hbr
            cases isBreak cp <;> simp
          rw [if_neg hbr]
          simpa [nextLC, hbrf] using h2

/-- C5: every occurrence reported by `scan` carries exactly the line
and column derived by the spec's forward pass (line 1, column 1 start;
CR LF consumed as one break; CR, LF, LS, PS each start a new line;
anything else advances the column; a lone trailing CR counts as a
break). -/
theorem scan_positions_consistent (l : List Nat) (m : PositionedMatch)
    (hm : m ∈ findNonPrintableWithPositions l) :
    (m.index, m.line, m.column) ∈ specPositions l :=
  scanAux_pos_mem l 0 1 1 m hm

/-- Witness for C5 at `['A', ZERO WIDTH SPACE]`. -/
theorem scan_positions_consistent_witness :
    (⟨1, 0x200b, 0x200b, "ZERO WIDTH SPACE", "Cf", 1, 2⟩ : PositionedMatch) ∈
      findNonPrintableWithPositions [0x41, 0x200b] ∧
    ((1 : Nat), (1 : Nat), (2 : Nat)) ∈ specPositions [0x41, 0x200b] :=
  ⟨by decide,
    scan_positions_consistent [0x41, 0x200b]
      ⟨1, 0x200b, 0x200b, "ZERO WIDTH SPACE", "Cf", 1, 2⟩ (by decide)⟩

/-- C4, amended: under default options the NO-BREAK SPACE becomes a
space but the CARRIAGE RETURN is also removed (`preserveCR` is false and
`removeCc` is true), giving `"café\n word"`; with `preserveCR` set
the output is the expected `"café\r\n word"`; and the scan reports
no NO-BREAK SPACE at all — its only occurrence is the CARRIAGE RETURN at
line 1, column 5. -/
theorem cleanText_scan_inputC4 :
    cleanText inputC4 defaultCleanOptions =
      [0x63, 0x61, 0x66, 0xe9, 0x0a, 0x20, 0x77, 0x6f, 0x72, 0x64] ∧
    cleanText inputC4 optionsC4 =
      [0x63, 0x61, 0x66, 0xe9, 0x0d, 0x0a, 0x20, 0x77, 0x6f, 0x72, 0x64] ∧
    findNonPrintableWithPositions inputC4 =
      [⟨4, 0x0d, 0x0d, "CARRIAGE RETURN", "Cc", 1, 5⟩] := by
  decide

/-- Printable ASCII is not matched by the non-printable classifier. -/
theorem ascii_not_nonPrintable (cp : Nat) (h1 : 0x20 ≤ cp) (h2 : cp ≤ 0x7e) :
    isNonPrintable cp = false := by
  simp only [isNonPrintable, isCc, isCf, isCs, isCo, isCn, inRange,
    Bool.or_eq_false_iff, decide_eq_false_iff_not, beq_eq_false_iff_ne, ne_eq,
    Bool.and_eq_false_iff]
  omega

/-- On a printable ASCII code point every cleaning rule falls through to
the final pass-through, for any options. -/
theorem cleanCp_ascii (o : CleanOptions) (cp : Nat) (h1 : 0x20 ≤ cp) (h2 : cp ≤ 0x7e) :
    cleanCp o cp = [cp] := by
  have e1 : (cp == 0xa0) = false := by
    simp only [beq_eq_false_iff_ne, ne_eq]
    omega
  have e2 : dashMap cp = none := by
    unfold dashMap
    have : (cp == 0x2010 || cp == 0x2011 || cp == 0x2012 || cp == 0x2013 ||
        cp == 0x2014 || cp == 0x2212) = false := by
      simp only [Bool.or_eq_false_iff, beq_eq_false_iff_ne, ne_eq]
      omega
    simp [this]
  have e3 : quoteMap cp = none := by
    unfold quoteMap
    have q1 : (cp == 0x2018 || cp == 0x2019 || cp == 0x201a || cp == 0x201b ||
        cp == 0x2032) = false := by
      simp only [Bool.or_eq_false_iff, beq_eq_false_iff_ne, ne_eq]
      omega
    have q2 : (cp == 0x201c || cp == 0x201d || cp == 0x201e || cp == 0x201f ||
        cp == 0x2033) = false := by
      simp only [Bool.or_eq_false_iff, beq_eq_false_iff_ne, ne_eq]
      omega
    simp [q1, q2]
  have e4 : (cp == 0x200b) = false := by
    simp only [beq_eq_false_iff_ne, ne_eq]
    omega
  have e5 := ascii_not_nonPrintable cp h1 h2
  simp [cleanCp, e1, e2, e3, e4, e5]

/-- Cleaning a printable ASCII text is the identity, for any options. -/
theorem cleanText_ascii (l : List Nat) (o : CleanOptions)
    (h : ∀ cp ∈ l, 0x20 ≤ cp ∧ cp ≤ 0x7e) :
    cleanText l o = l := by
  induction l with
  | nil => rfl
  | cons cp rest ih =>
    have hcp := h cp (List.mem_cons_self cp rest)
    have hrest : ∀ c ∈ rest, 0x20 ≤ c ∧ c ≤ 0x7e :=
      fun c hc => h c (List.mem_cons_of_mem cp hc)
    simp [cleanText, cleanCp_ascii o cp hcp.1 hcp.2, ih hrest]

/-- C9: on printable ASCII text, cleaning under the default options is
idempotent. -/
theorem cleanText_idempotent_ascii (l : List Nat)
    (h : ∀ cp ∈ l, 0x20 ≤ cp ∧ cp ≤ 0x7e) :
    cleanText (cleanText l defaultCleanOptions) defaultCleanOptions =
      cleanText l defaultCleanOptions := by
  rw [cleanText_ascii l defaultCleanOptions h, cleanText_ascii l defaultCleanOptions h]

/-- Witness for C9 at the ASCII text `"Hi"`. -/
theorem cleanText_idempotent_ascii_witness :
    (∀ cp ∈ [0x48, 0x69], 0x20 ≤ cp ∧ cp ≤ 0x7e) ∧
    cleanText (cleanText [0x48, 0x69] defaultCleanOptions) defaultCleanOptions =
      cleanText [0x48, 0x69] defaultCleanOptions :=
  ⟨by decide, cleanText_idempotent_ascii [0x48, 0x69] (by decide)⟩

/-- Rendering around a CR LF pair, generalised over the loop state: the
prefix renders as usual, the CARRIAGE RETURN contributes exactly one
placeholder span and one count, the LINE FEED contributes nothing at
all, and the suffix continues on the next line. -/
theorem visualizeAux_crlf (l2 l1 : List Nat) (line col : Nat) :
    visualizeAux (l1 ++ 0x0d :: 0x0a :: l2) line col =
      ⟨(visualizeAux l1 line col).html ++
        hiddenSpan 0x0d (visualizeAux l1 line col).line (visualizeAux l1 line col).column ++
        (visualizeAux l2 ((visualizeAux l1 line col).line + 1) 1).html,
       (visualizeAux l1 line col).count + 1 +
        (visualizeAux l2 ((visualizeAux l1 line col).line + 1) 1).count,
       (visualizeAux l2 ((visualizeAux l1 line col).line + 1) 1).line,
       (visualizeAux l2 ((visualizeAux l1 line col).line + 1) 1).column⟩ := by
  induction l1, line, col using visualizeAux.induct with
  | case1 line col =>
    have h13 : isNonPrintable 0x0d = true := by decide
    simp [visualizeAux, h13]
  | case2 cp line col =>
    have h13 : isNonPrintable 0x0d = true := by decide
    simp [visualizeAux, h13, String.append_assoc, Nat.add_assoc]
  | case3 cp cp2 rest line col hpair ih =>
    simp [visualizeAux, hpair, ih, String.append_assoc, Nat.add_assoc]
  | case4 cp cp2 rest line col hpair ih =>
    have hpairf : (cp == 0x0d && cp2 == 0x0a) = false := by
      revert hpair
      cases (cp == 0x0d && cp2 == 0x0a) <;> simp
    simp only [List.cons_append] at ih
    simp only [List.cons_append, visualizeAux, hpairf, Bool.false_eq_true, if_false,
      List.append_eq]
    rw [ih]
    simp [String.append_assoc, Nat.add_assoc]

/-- C10: in the rendered markup, a CARRIAGE RETURN immediately followed
by LINE FEED produces exactly the prefix's rendering, one placeholder
span for the CARRIAGE RETURN (which is counted once), and then the
rendering of the text after the LINE FEED — the LINE FEED itself emits
no markup and is not counted. -/
theorem visualize_crlf_skips_lf (l1 l2 : List Nat) :
    visualizeWithTokens (l1 ++ 0x0d :: 0x0a :: l2) =
      ((visualizeAux l1 1 1).html ++
         hiddenSpan 0x0d (visualizeAux l1 1 1).line (visualizeAux l1 1 1).column ++
         (visualizeAux l2 ((visualizeAux l1 1 1).line + 1) 1).html,
       (visualizeAux l1 1 1).count + 1 +
         (visualizeAux l2 ((visualizeAux l1 1 1).line + 1) 1).count) := by
  unfold visualizeWithTokens
  rw [visualizeAux_crlf]

/-- Keys after a bump: unchanged when the key is present, appended
otherwise. -/
theorem bump_keys (cp : Nat) (acc : List (Nat × Nat)) :
    (bump cp acc).map Prod.fst =
      (if cp ∈ acc.map Prod.fst then acc.map Prod.fst
       else acc.map Prod.fst ++ [cp]) := by
  induction acc with
  | nil => simp [bump]
  | cons p rest ih =>
    obtain ⟨k, c⟩ := p
    by_cases hk : k = cp
    · subst hk
      simp [bump]
    · have hkb : (k == cp) = false := by simpa using hk
      have hck : (cp = k) ↔ False := by
        constructor
        · exact fun h => hk h.symm
        · exact False.elim
      simp only [bump, hkb, Bool.false_eq_true, if_false, List.map_cons, ih,
        List.mem_cons, hck, false_or, List.cons_append]
      by_cases hmem : cp ∈ rest.map Prod.fst
      · simp [hmem]
      · simp [hmem]

/-- Membership among the keys after a bump. -/
theorem mem_bump_keys (q cp : Nat) (acc : List (Nat × Nat)) :
    q ∈ (bump cp acc).map Prod.fst ↔ q = cp ∨ q ∈ acc.map Prod.fst := by
  rw [bump_keys]
  by_cases hmem : cp ∈ acc.map Prod.fst
  · rw [if_pos hmem]
    constructor
    · exact fun h => Or.inr h
    · rintro (rfl | h)
      · exact hmem
      · exact h
  · rw [if_neg hmem]
    simp [or_comm]

/-- A bump keeps the keys duplicate-free. -/
theorem nodup_bump_keys (cp : Nat) (acc : List (Nat × Nat))
    (h : (acc.map Prod.fst).Nodup) : ((bump cp acc).map Prod.fst).Nodup := by
  rw [bump_keys]
  by_cases hmem : cp ∈ acc.map Prod.fst
  · rw [if_pos hmem]
    exact h
  · rw [if_neg hmem]
    simp [List.nodup_append, h, hmem]

/-- The keys of the frequency map stay duplicate-free along the fold. -/
theorem freq_foldl_keys_nodup (occs : List Nat) (acc : List (Nat × Nat))
    (h : (acc.map Prod.fst).Nodup) :
    ((occs.foldl (fun a c => bump c a) acc).map Prod.fst).Nodup := by
  induction occs generalizing acc with
  | nil => simpa
  | cons cp occs ih => exact ih _ (nodup_bump_keys cp acc h)

/-- The keys of the frequency map are the starting keys plus the folded
matches. -/
theorem freq_foldl_keys_mem (occs : List Nat) (acc : List (Nat × Nat)) (q : Nat) :
    q ∈ (occs.foldl (fun a c => bump c a) acc).map Prod.fst ↔
      q ∈ acc.map Prod.fst ∨ q ∈ occs := by
  induction occs generalizing acc with
  | nil => simp
  | cons cp occs ih =>
    simp only [List.foldl_cons, ih, mem_bump_keys, List.mem_cons]
    tauto

/-- Lookup after bumping the looked-up key. -/
theorem findCount_bump_self (cp : Nat) (acc : List (Nat × Nat)) :
    findCount (bump cp acc) cp = some ((findCount acc cp).getD 0 + 1) := by
  induction acc with
  | nil => simp [bump, findCount]
  | cons p rest ih =>
    obtain ⟨k, c⟩ := p
    by_cases hk : k = cp
    · subst hk
      simp [bump, findCount]
    · have hkb : (k == cp) = false := by simpa using hk
      simp [bump, findCount, hkb, ih]

/-- Lookup after bumping a different key. -/
theorem findCount_bump_other (cp q : Nat) (acc : List (Nat × Nat)) (hq : q ≠ cp) :
    findCount (bump cp acc) q = findCount acc q := by
  have hcpq : (cp == q) = false := by simpa using fun h => hq h.symm
  induction acc with
  | nil => simp [bump, findCount, hcpq]
  | cons p rest ih =>
    obtain ⟨k, c⟩ := p
    by_cases hk : k = cp
    · subst hk
      simp [bump, findCount, hcpq]
    · have hkb : (k == cp) = false := by simpa using hk
      simp [bump, findCount, hkb, ih]

/-- Folding the matches accumulates, per key, exactly the number of its
occurrences among the matches. -/
theorem freq_foldl_count (occs : List Nat) (acc : List (Nat × Nat)) (q : Nat) :
    (findCount (occs.foldl (fun a c => bump c a) acc) q).getD 0 =
      (findCount acc q).getD 0 + occs.count q := by
  induction occs generalizing acc with
  | nil => simp
  | cons cp occs ih =>
    simp only [List.foldl_cons]
    rw [ih]
    by_cases hq : q = cp
    · subst hq
      rw [findCount_bump_self]
      simp [List.count_cons]
      omega
    · rw [findCount_bump_other cp q acc hq]
      simp [List.count_cons, hq]

/-- With duplicate-free keys, a pair of the association list is exactly
what lookup returns. -/
theorem findCount_of_mem (acc : List (Nat × Nat)) (k c : Nat)
    (hnd : (acc.map Prod.fst).Nodup) (hm : (k, c) ∈ acc) :
    findCount acc k = some c := by
  induction acc with
  | nil => simp at hm
  | cons p rest ih =>
    obtain ⟨k0, c0⟩ := p
    simp only [List.map_cons, List.nodup_cons] at hnd
    rcases List.mem_cons.mp hm with heq | hmem
    · obtain ⟨rfl, rfl⟩ := Prod.mk.injEq .. ▸ And.intro (congrArg Prod.fst heq.symm) (congrArg Prod.snd heq.symm)
      simp [findCount]
    · have hk : k0 ≠ k := by
        intro h
        subst h
        exact hnd.1 (List.mem_map_of_mem Prod.fst hmem)
      have hkb : (k0 == k) = false := by simpa using hk
      simp [findCount, hkb, ih hnd.2 hmem]

/-- Every pair of the frequency map counts its key's occurrences. -/
theorem freq_pair_count (occs : List Nat) (k c : Nat) (hm : (k, c) ∈ freqOf occs) :
    c = occs.count k := by
  have hnd : ((freqOf occs).map Prod.fst).Nodup :=
    freq_foldl_keys_nodup occs [] (by simp)
  have h1 := findCount_of_mem _ k c hnd hm
  have h2 := freq_foldl_count occs [] k
  unfold freqOf at h1
  rw [h1] at h2
  simpa [findCount] using h2

/-- Totality of the entry order. -/
theorem entryLE_total (a b : FrequencyEntry) :
    entryLE a b = true ∨ entryLE b a = true := by
  unfold entryLE
  simp only [Bool.or_eq_true, Bool.and_eq_true, decide_eq_true_eq, beq_iff_eq]
  omega

/-- Transitivity of the entry order. -/
theorem entryLE_trans (a b c : FrequencyEntry)
    (h1 : entryLE a b = true) (h2 : entryLE b c = true) : entryLE a c = true := by
  unfold entryLE at h1 h2 ⊢
  simp only [Bool.or_eq_true, Bool.and_eq_true, decide_eq_true_eq, beq_iff_eq] at h1 h2 ⊢
  omega

/-- Ordered insertion preserves sortedness. -/
theorem pairwise_insertEntry (e : FrequencyEntry) (es : List FrequencyEntry)
    (h : es.Pairwise (fun a b => entryLE a b = true)) :
    (insertEntry e es).Pairwise (fun a b => entryLE a b = true) := by
  induction es with
  | nil => simp [insertEntry]
  | cons x xs ih =>
    rcases List.pairwise_cons.mp h with ⟨hx, hxs⟩
    unfold insertEntry
    by_cases hex : entryLE e x = true
    · rw [if_pos hex]
      refine List.pairwise_cons.mpr ⟨?_, h⟩
      intro y hy
      rcases List.mem_cons.mp hy with rfl | hy2
      · exact hex
      · exact entryLE_trans e x y hex (hx y hy2)
    · rw [if_neg hex]
      refine List.pairwise_cons.mpr ⟨?_, ih hxs⟩
      intro y hy
      rcases List.mem_cons.mp ((insertEntry_perm e xs).mem_iff.mp hy) with rfl | hy3
      · rcases entryLE_total y x with h4 | h4
        · exact absurd h4 hex
        · exact h4
      · exact hx y hy3

/-- The sorted frequency entries are sorted by the entry order. -/
theorem pairwise_sortEntries (es : List FrequencyEntry) :
    (sortEntries es).Pairwise (fun a b => entryLE a b = true) := by
  induction es with
  | nil => simp [sortEntries]
  | cons x xs ih => exact pairwise_insertEntry x _ ih

/-- C8: the frequency table has exactly one entry per distinct detected
code point, each entry counts that code point's occurrences, and the
entries are sorted by descending count with ties by ascending code
point. -/
theorem summarize_spec (l : List Nat) :
    ((summarizeNonPrintable l).map FrequencyEntry.codePoint).Nodup ∧
    (∀ cp : Nat,
      cp ∈ (summarizeNonPrintable l).map FrequencyEntry.codePoint ↔
        cp ∈ (findNonPrintable l).map NonPrintableMatch.codePoint) ∧
    (∀ e ∈ summarizeNonPrintable l,
      e.count =
        ((findNonPrintable l).map NonPrintableMatch.codePoint).count e.codePoint) ∧
    (summarizeNonPrintable l).Pairwise
      (fun a b => b.count < a.count ∨ (a.count = b.count ∧ a.codePoint < b.codePoint)) := by
  have hocc : (findNonPrintable l).map NonPrintableMatch.codePoint =
      l.filter isNonPrintable := findAux_map_codePoint l 0
  have hperm : List.Perm (summarizeNonPrintable l)
      ((freqOf (l.filter isNonPrintable)).map mkEntry) := sortEntries_perm _
  have hkeys : ((freqOf (l.filter isNonPrintable)).map mkEntry).map FrequencyEntry.codePoint =
      (freqOf (l.filter isNonPrintable)).map Prod.fst := by
    rw [List.map_map]
    rfl
  have hnd0 : ((freqOf (l.filter isNonPrintable)).map Prod.fst).Nodup :=
    freq_foldl_keys_nodup (l.filter isNonPrintable) [] (by simp)
  have hnd : ((summarizeNonPrintable l).map FrequencyEntry.codePoint).Nodup := by
    rw [(hperm.map FrequencyEntry.codePoint).nodup_iff, hkeys]
    exact hnd0
  refine ⟨hnd, ?_, ?_, ?_⟩
  · intro cp
    rw [(hperm.map FrequencyEntry.codePoint).mem_iff, hkeys, hocc]
    unfold freqOf
    rw [freq_foldl_keys_mem]
    simp
  · intro e he
    rw [hocc]
    rcases List.mem_map.mp (hperm.mem_iff.mp he) with ⟨p, hp, rfl⟩
    exact freq_pair_count (l.filter isNonPrintable) p.1 p.2 hp
  · have hle := pairwise_sortEntries ((freqOf (l.filter isNonPrintable)).map mkEntry)
    have hne : (summarizeNonPrintable l).Pairwise
        (fun a b => a.codePoint ≠ b.codePoint) := List.pairwise_map.mp hnd
    have hand := hle.and hne
    refine hand.imp ?_
    intro a b hab
    rcases hab with ⟨h1, h2⟩
    unfold entryLE at h1
    simp only [Bool.or_eq_true, Bool.and_eq_true, decide_eq_true_eq, beq_iff_eq] at h1
    omega

end ClearText
